import Mathlib

/-!
Verification development for the QKD benchmark core (file
src/services/geminiService.ts): the regex key-value pre-extractor
`preParseWithRegex`, the provenance reconciliation step of `normalizeLogs`,
and the finite-key secure-key-rate calculator
`calculateSecureSKR_deterministic`.

Modelling conventions:
* JavaScript numbers are modelled by an arbitrary linear ordered field `K`
  (instantiated at `ℚ` for concrete evaluations).  The opaque builtins
  `Math.log2` and `Math.sqrt` are abstracted as a `MathOps K` parameter, so
  every theorem below holds for any interpretation of those two functions.
* `null`/`undefined` leaf values become `Option K`; the TypeScript optional
  chaining `data.security?.x` on a missing section is observationally the
  same as a section of all-`none` fields, so sections are plain structures
  of options.
* The thrown `Error` messages of the calculator are determined by their
  payload (the list of missing field names, or the offending QBER value),
  so errors are modelled by the inductive `SKRError` carrying that payload.
* `trace` entry values are always numbers at every call site of `addTrace`,
  so `SKRTraceEntry.value : K`.
-/

/-- Abstraction of the JavaScript numeric builtins used by the calculator
(`Math.log2` and `Math.sqrt`). -/
structure MathOps (K : Type) where
  log2 : K → K
  sqrt : K → K

/-- Provenance entry as in types.ts (`field`, `snippet`, `confidence_score`);
the optional `span`/`top_3_alternatives` members are never produced by the
code under study and are omitted. -/
structure ProvenanceEntry (K : Type) where
  field : String
  snippet : String
  confidence_score : K
deriving DecidableEq

/-- A value stored by the pre-extractor: either a coerced number or the
original trimmed string. -/
inductive JValue (K : Type) where
  | num : K → JValue K
  | str : String → JValue K
deriving DecidableEq

/-- The dynamically-built partial record of `preParseWithRegex`: an
insertion-ordered finite map from dotted field paths to leaf values
(mirroring `setNestedValue`, which writes one leaf per dotted path), plus
the `_provenance` array. -/
structure PreParsedRecord (K : Type) where
  fields : List (String × JValue K)
  _provenance : List (ProvenanceEntry K)
deriving DecidableEq

/-- Return value of `preParseWithRegex`. -/
structure ExtractResult (K : Type) where
  preParsedData : PreParsedRecord K
  remainingLogs : String
deriving DecidableEq

/-- The `security` section of QKDNormalizedV1, restricted to the leaves the
calculator reads (the remaining leaves are never inspected by the code
under verification). -/
structure SecuritySection (K : Type) where
  epsilon : Option K
  epsilon_sec : Option K
  epsilon_cor : Option K
  qber_total : Option K
  sifted_bits : Option K
  sifted_key_rate_bps : Option K
deriving DecidableEq

/-- The `dv_specific` section of QKDNormalizedV1. -/
structure DVSection (K : Type) where
  ec_efficiency_beta : Option K
deriving DecidableEq

/-- The canonical record, restricted to the sections read by the
calculator. -/
structure QKDRecord (K : Type) where
  security : SecuritySection K
  dv_specific : DVSection K
deriving DecidableEq

/-- Trace entry (`step`, `value`, optional `formula`) as pushed by
`addTrace`. -/
structure SKRTraceEntry (K : Type) where
  step : String
  value : K
  formula : Option String
deriving DecidableEq

/-- The two `Error`s thrown inside `calculateSecureSKR_deterministic`,
identified by their payload: the full list of missing field names
(line 201 of the source) or the offending QBER value (line 212). -/
inductive SKRError (K : Type) where
  | validation : List String → SKRError K
  | securityThreshold : K → SKRError K
deriving DecidableEq

/-- FiniteKeyCalculation as in types.ts; `inputs` and `intermediates` are
insertion-ordered string-keyed maps, all of whose values are numbers. -/
structure FiniteKeyCalculation (K : Type) where
  equation : String
  inputs : List (String × K)
  intermediates : List (String × K)
  R_secure_bps : Option K
  error : Option (SKRError K)
  trace : List (SKRTraceEntry K)
deriving DecidableEq

/-- Digit run check used by the decimal-literal fragment of the JS
`Number` coercion model. -/
def isDigits (l : List Char) : Bool :=
  !l.isEmpty && l.all Char.isDigit

/-- Value of a digit run. -/
def natOf (l : List Char) : Nat :=
  l.foldl (fun a c => 10 * a + (c.toNat - 48)) 0

/-- Whitespace trim on character lists (structural counterpart of the JS
`trim`, which the source applies to lines, keys and values). -/
def trimChars (l : List Char) : List Char :=
  ((l.dropWhile Char.isWhitespace).reverse.dropWhile Char.isWhitespace).reverse

/-- JS `trim` on strings. -/
def jsTrim (s : String) : String :=
  String.mk (trimChars s.toList)

/-- JS `toLowerCase` (ASCII range, the only one exercised by the key
table). -/
def lowerString (s : String) : String :=
  String.mk (s.toList.map Char.toLower)

/-- Whether a string starts with the given character. -/
def headIs (s : String) (c : Char) : Bool :=
  match s.toList with
  | [] => false
  | d :: _ => d == c

/-- Whether a string ends with the given character. -/
def lastIs (s : String) (c : Char) : Bool :=
  match s.toList.getLast? with
  | some d => d == c
  | none => false

/-- JS `split("\n")`: the list of lines, keeping empty segments. -/
def splitLines (s : String) : List String :=
  (s.toList.foldr
    (fun c (acc : List (List Char)) =>
      if c == '\n' then [] :: acc
      else
        match acc with
        | [] => [[c]]
        | h :: t => (c :: h) :: t)
    [[]]).map String.mk

/-- JS `join("\n")`. -/
def joinLines (ls : List String) : String :=
  String.mk
    (match ls with
     | [] => []
     | h :: t => t.foldl (fun acc s2 => acc ++ '\n' :: s2.toList) h.toList)

/-- Modelled from the JS builtin `Number` applied to a mantissa: digits with
an optional single decimal point (at least one digit overall). -/
def parseMantissa (K : Type) [LinearOrderedField K] (l : List Char) : Option K :=
  match l.findIdx? (fun c => c == '.') with
  | none => if isDigits l then some ((natOf l : ℕ) : K) else none
  | some i =>
    let intPart := l.take i
    let fracPart := l.drop (i + 1)
    if intPart.all Char.isDigit && fracPart.all Char.isDigit
        && (!intPart.isEmpty || !fracPart.isEmpty) then
      some ((natOf intPart : ℕ) + (natOf fracPart : ℕ) / (10 : K) ^ fracPart.length)
    else none

/-- Modelled from the JS builtin `Number`: the optional exponent part. -/
def parseExponent (l : List Char) : Option ℤ :=
  match l with
  | '+' :: r => if isDigits r then some ((natOf r : ℕ) : ℤ) else none
  | '-' :: r => if isDigits r then some (-((natOf r : ℕ) : ℤ)) else none
  | r => if isDigits r then some ((natOf r : ℕ) : ℤ) else none

/-- Modelled from the JS builtin `Number`, unsigned part: mantissa with an
optional decimal exponent. -/
def parseUnsigned (K : Type) [LinearOrderedField K] (l : List Char) : Option K :=
  match l.findIdx? (fun c => c == 'e' || c == 'E') with
  | none => parseMantissa K l
  | some i =>
    match parseMantissa K (l.take i), parseExponent (l.drop (i + 1)) with
    | some m, some e => some (m * (10 : K) ^ e)
    | _, _ => none

/-- Modelled from the JS builtin `Number` on decimal string literals
(`none` plays the role of `NaN`): surrounding whitespace is ignored, the
empty string denotes `0`, and an optional sign precedes the unsigned
literal.  Non-decimal `Number` syntax (hex, `Infinity`, ...) is out of
scope; no claim depends on the coerced value. -/
def parseJsNumber (K : Type) [LinearOrderedField K] (s : String) : Option K :=
  match trimChars s.toList with
  | [] => some 0
  | '+' :: rest => parseUnsigned K rest
  | '-' :: rest => (parseUnsigned K rest).map (fun x => -x)
  | l => parseUnsigned K l

/-- Value coercion of `setNestedValue` (source lines 58-60): strip `_`
characters; if the cleaned string is numeric and not blank store the
number, else store the original (trimmed) string. -/
def coerceValue (K : Type) [LinearOrderedField K] (value : String) : JValue K :=
  let cleanedValue := String.mk (value.toList.filter (fun c => !(c == '_')))
  match parseJsNumber K cleanedValue with
  | some numValue => if jsTrim cleanedValue ≠ "" then .num numValue else .str value
  | none => .str value

/-- Field update of `setNestedValue` on the flattened path map: overwrite
in place when the dotted path already exists, else append. -/
def setField (K : Type) (fields : List (String × JValue K)) (path : String)
    (v : JValue K) : List (String × JValue K) :=
  match fields with
  | [] => [(path, v)]
  | (p, w) :: rest =>
    if p = path then (p, v) :: rest else (p, w) :: setField K rest path v

/-- The canonical key-to-path table of `preParseWithRegex`
(source lines 40-49). -/
def keyMap : String → Option String
  | "vendor" => some "meta.vendor"
  | "model" => some "meta.model"
  | "run_id" => some "meta.run_id"
  | "protocol" => some "meta.protocol"
  | "link_type" => some "meta.link_type"
  | "profile" => some "meta.profile"
  | "firmware_version" => some "meta.firmware_version"
  | "timestamp" => some "meta.timestamp"
  | "distance_km" => some "link.distance_km"
  | "fiber_loss_db" => some "link.fiber_loss_dB"
  | "alpha_db_per_km" => some "link.alpha_dB_per_km"
  | "epsilon" => some "security.epsilon"
  | "qber_total" => some "security.qber_total"
  | "sifted_bits" => some "security.sifted_bits"
  | "sifted_key_rate_bps" => some "security.sifted_key_rate_bps"
  | "basis_reconciliation" => some "security.basis_reconciliation"
  | "authentication" => some "security.authentication"
  | "count_rate_mcps" => some "detector.count_rate_Mcps"
  | "detector_count_rate_mcps" => some "detector.count_rate_Mcps"
  | "max_mcps" => some "detector.max_Mcps"
  | "detector_max_mcps" => some "detector.max_Mcps"
  | _ => none

/-- Replacement of every maximal whitespace run by a single underscore,
as in the key normalisation `replace(/\s+/g, "_")`. -/
def collapseWs (s : String) : String :=
  let step := s.toList.foldl
    (fun (st : List Char × Bool) c =>
      if c.isWhitespace then (if st.2 then st.1 else st.1 ++ ['_'], true)
      else (st.1 ++ [c], false))
    ([], false)
  String.mk step.1

/-- Key normalisation of source line 66:
`match[1].trim().toLowerCase().replace(/\s+/g, "_")`. -/
def normalizeKey (rawKey : String) : String :=
  collapseWs (lowerString (jsTrim rawKey))

/-- ECMAScript line terminators, which `.` without the `s` flag refuses to
match while `\s` accepts them.  Within a line produced by `split("\n")`
the reachable one is `\r` (CRLF input); `\n` is included for
completeness, and the exotic U+2028/U+2029 are outside the ASCII scope of
this model. -/
def isLineTerminator (c : Char) : Bool :=
  c == '\r' || c == '\n'

/-- Embedding of the line regex of source line 64,
`^\s*([^:]+):\s*(.+)\s*$`, with ECMAScript semantics: `[^:]+` matches any
character except the colon (line terminators included), while `.` refuses
line terminators and `\s` accepts them.  Hence a line matches when its
first colon is preceded by at least one character, and the text after
that colon admits a split `\s* (.+) \s*` — which holds exactly when that
text contains at least one non-terminator character and its
whitespace-trimmed core contains no line terminator (a core character
between the outermost non-whitespace characters must be matched by `.`).
So "vendor: a" and "vendor:  " match, but "vendor:\r" and "vendor: a\rb"
do not.  The two returned segments are the raw text before and after the
colon; the code consumes both groups only up to `trim`, under which they
agree with the regex capture groups (in every matching case
`match[2].trim()` equals the trim of the whole post-colon segment). -/
def matchKeyValue (line : String) : Option (String × String) :=
  let cs := line.toList
  match cs.findIdx? (fun c => c == ':') with
  | none => none
  | some i =>
    if i = 0 then none
    else
      let afterColon := cs.drop (i + 1)
      let core := trimChars afterColon
      if afterColon.any (fun c => !(isLineTerminator c))
          && core.all (fun c => !(isLineTerminator c)) then
        some (String.mk (cs.take i), String.mk afterColon)
      else none

/-- Body of the `lines.forEach` loop of `preParseWithRegex`
(source lines 63-81), acting on the accumulated partial record and
`remainingLines`. -/
def processLine (K : Type) [LinearOrderedField K]
    (acc : PreParsedRecord K × List String) (line : String) :
    PreParsedRecord K × List String :=
  match matchKeyValue line with
  | some (rawKey, rawValue) =>
    let key := normalizeKey rawKey
    let value := jsTrim rawValue
    match keyMap key with
    | some path =>
      (⟨setField K acc.1.fields path (coerceValue K value),
        acc.1._provenance ++ [⟨path, jsTrim line, 1⟩]⟩, acc.2)
    | none => (acc.1, acc.2 ++ [line])
  | none => (acc.1, acc.2 ++ [line])

/-- The `forEach` traversal over all lines. -/
def scanLines (K : Type) [LinearOrderedField K]
    (acc : PreParsedRecord K × List String) :
    List String → PreParsedRecord K × List String
  | [] => acc
  | line :: rest => scanLines K (processLine K acc line) rest

/-- The JSON/CSV guardrail of source line 36: trimmed input wrapped in
braces or brackets, or a comma in the first raw line. -/
def guardTriggered (logs : String) : Bool :=
  let trimmedLogs := jsTrim logs
  (headIs trimmedLogs '\x7b' && lastIs trimmedLogs '\x7d')
    || (headIs trimmedLogs '[' && lastIs trimmedLogs ']')
    || ((splitLines logs).headD "").toList.contains ','

/-- Embedding of `preParseWithRegex` (source lines 29-84). -/
def preParseWithRegex (K : Type) [LinearOrderedField K] (logs : String) :
    ExtractResult K :=
  let lines := splitLines logs
  if guardTriggered logs then ⟨⟨[], []⟩, logs⟩
  else
    let result := scanLines K (⟨[], []⟩, []) lines
    ⟨result.1, jsTrim (joinLines result.2)⟩

/-- Predicate deciding whether the loop routes a line to `remainingLines`:
the line does not match the regex, or its normalised key is not in the
table. -/
def lineRemains (line : String) : Bool :=
  match matchKeyValue line with
  | some (rawKey, _) => (keyMap (normalizeKey rawKey)).isNone
  | none => true

/-- Provenance reconciliation of `normalizeLogs` (source lines 118-120):
keep every high-trust entry, and keep a low-trust entry only when no
high-trust entry has the same field path. -/
def reconcileProvenance (K : Type) (high low : List (ProvenanceEntry K)) :
    List (ProvenanceEntry K) :=
  let preParsedFields := high.map (fun p => p.field)
  high ++ low.filter (fun p => decide (p.field ∉ preParsedFields))

/-- The equation string of the calculator (source line 167). -/
def skrEquation : String :=
  "R_secure_bps = (S/N) * [N * (1 - h₂(Q)) - (N * h₂(Q) * β) - Δ]"

/-- Resolved calculator inputs after the defaulting steps, together with
the trace entries recorded while defaulting. -/
structure ResolvedInputs (K : Type) where
  S_bps : Option K
  Q : Option K
  N : Option K
  eps_sec : Option K
  eps_cor : Option K
  beta : K
  trace : List (SKRTraceEntry K)
deriving DecidableEq

/-- Input resolution of `calculateSecureSKR_deterministic`
(source lines 174-191): direct reads, the single-epsilon substitution
(guarded by JS truthiness of `single_eps`, so a present-but-zero epsilon
is not substituted), and the beta default `1.1`. -/
def resolveInputs (K : Type) [LinearOrderedField K] (r : QKDRecord K) :
    ResolvedInputs K :=
  let S_bps := r.security.sifted_key_rate_bps
  let Q := r.security.qber_total
  let N := r.security.sifted_bits
  let es0 := r.security.epsilon_sec
  let ec0 := r.security.epsilon_cor
  let epsStep : Option K × Option K × List (SKRTraceEntry K) :=
    match r.security.epsilon with
    | some e =>
      if e ≠ 0 ∧ es0 = none ∧ ec0 = none then
        (some e, some e, [⟨"Epsilon", e, some "Used single epsilon for both sec/cor"⟩])
      else (es0, ec0, [])
    | none => (es0, ec0, [])
  let betaStep : K × List (SKRTraceEntry K) :=
    match r.dv_specific.ec_efficiency_beta with
    | some b => (b, [])
    | none =>
      (11 / 10, [⟨"EC Efficiency (β)", 11 / 10, some "Default value assumed"⟩])
  ⟨S_bps, Q, N, epsStep.1, epsStep.2.1, betaStep.1, epsStep.2.2 ++ betaStep.2⟩

/-- Missing-field list of source lines 193-198, in the fixed order S, Q, N,
eps_sec, eps_cor. -/
def missingFields (K : Type) [DecidableEq K] (res : ResolvedInputs K) : List String :=
  (if res.S_bps = none then ["security.sifted_key_rate_bps"] else [])
    ++ (if res.Q = none then ["security.qber_total"] else [])
    ++ (if res.N = none then ["security.sifted_bits"] else [])
    ++ (if res.eps_sec = none then ["security.epsilon_sec (or epsilon)"] else [])
    ++ (if res.eps_cor = none then ["security.epsilon_cor (or epsilon)"] else [])

/-- Binary entropy of source lines 215-218: zero outside the open unit
interval. -/
def h2 (K : Type) [LinearOrderedField K] (ops : MathOps K) (q : K) : K :=
  if q ≤ 0 ∨ 1 ≤ q then 0
  else -q * ops.log2 q - (1 - q) * ops.log2 (1 - q)

/-- The six resolved-input trace entries of source lines 204-209. -/
def inputTraceEntries (K : Type) (s q b n es ec : K) : List (SKRTraceEntry K) :=
  [⟨"Sifted Rate (S)", s, some "Input"⟩,
   ⟨"QBER (Q)", q, some "Input"⟩,
   ⟨"EC Efficiency (β)", b, some "Input or Default"⟩,
   ⟨"Block Size (N)", n, some "Input"⟩,
   ⟨"ε_sec", es, some "Input"⟩,
   ⟨"ε_cor", ec, some "Input"⟩]

/-- Embedding of `calculateSecureSKR_deterministic` (source lines 165-255).
The `try`/`catch` boundary becomes the two failure branches, each
producing the catch-block result shape (empty `inputs` and
`intermediates`, null rate, the error payload, and the trace accumulated
so far). -/
def calculateSecureSKR_deterministic (K : Type) [LinearOrderedField K]
    (ops : MathOps K) (r : QKDRecord K) : FiniteKeyCalculation K :=
  let res := resolveInputs K r
  match res.S_bps, res.Q, res.N, res.eps_sec, res.eps_cor with
  | some s, some q, some n, some es, some ec =>
    let trace1 := res.trace ++ inputTraceEntries K s q res.beta n es ec
    if q > 11 / 100 then
      ⟨skrEquation, [], [], none, some (.securityThreshold q), trace1⟩
    else
      let h2_Q := h2 K ops q
      let leakage_ec_bits := n * h2_Q * res.beta
      let finite_penalty_bits :=
        2 * ops.log2 (1 / ec) + 4 * ops.log2 (1 / (2 * es)) * ops.sqrt (n * q * (1 - q))
      let R_secure_bits := n * (1 - h2_Q) - leakage_ec_bits - finite_penalty_bits
      let R0 := R_secure_bits / n * s
      let R_secure_bps := if R0 < 0 then 0 else R0
      ⟨skrEquation,
       [("S_bps", s), ("Q", q), ("beta", res.beta), ("N", n),
        ("eps_sec", es), ("eps_cor", ec)],
       [("h2_Q", h2_Q), ("leakage_ec_bits", leakage_ec_bits),
        ("finite_penalty_bits", finite_penalty_bits)],
       some R_secure_bps, none,
       trace1 ++
         [⟨"h₂(Q)", h2_Q, some "-Q*log₂(Q) - (1-Q)*log₂(1-Q)"⟩,
          ⟨"Leak_EC", leakage_ec_bits, some "N * h₂(Q) * β"⟩,
          ⟨"Δ (Penalty)", finite_penalty_bits, some "Finite-size penalty term"⟩,
          ⟨"R_secure_bits", R_secure_bits, some "N*(1 - h₂(Q)) - Leak_EC - Δ"⟩,
          ⟨"R_secure_bps", R_secure_bps,
           some "(R_secure_bits / N) * S_bps (clamped to 0)"⟩]⟩
  | _, _, _, _, _ =>
    ⟨skrEquation, [], [], none, some (.validation (missingFields K res)), res.trace⟩

/-- The intended real-number instantiation of the abstract numeric ops. -/
noncomputable def realMathOps : MathOps ℝ :=
  ⟨Real.logb 2, Real.sqrt⟩

/-- Dummy rational interpretation of the opaque numeric builtins, used to
evaluate the embedding on concrete inputs. -/
def qOps : MathOps ℚ :=
  ⟨fun _ => 0, fun _ => 0⟩

/-- Concrete record witnessing the threshold failure path. -/
def overThresholdRecord : QKDRecord ℚ :=
  ⟨⟨none, some (1 / 1000000000), some (1 / 1000000000), some (3 / 25),
    some 1000, some 1000⟩, ⟨none⟩⟩

/-- Concrete record with every security field null. -/
def emptySecurityRecord : QKDRecord ℚ :=
  ⟨⟨none, none, none, none, none, none⟩, ⟨none⟩⟩

/-- Concrete record with a present-but-zero `security.epsilon` and no
`epsilon_sec`/`epsilon_cor`. -/
def zeroEpsilonRecord : QKDRecord ℚ :=
  ⟨⟨some 0, none, none, some (1 / 20), some 1000, some 1⟩, ⟨some (11 / 10)⟩⟩

/-- Concrete record with a nonzero single `security.epsilon` and no
`epsilon_sec`/`epsilon_cor`. -/
def singleEpsilonRecord : QKDRecord ℚ :=
  ⟨⟨some (1 / 1000000000), none, none, some (1 / 20), some 1000, some 1⟩,
   ⟨some (11 / 10)⟩⟩

/-- Concrete record carrying the numeric round-trip example of the spec
(`Q = 0.026`, `N = 1500000`, `S = 180000`, `eps = 1e-9`, `beta = 1.1`). -/
def exampleRecord : QKDRecord ℚ :=
  ⟨⟨none, some (1 / 1000000000), some (1 / 1000000000), some (13 / 500),
    some 1500000, some 180000⟩, ⟨some (11 / 10)⟩⟩

/-- Concrete record sitting exactly on the `Q = 0.11` threshold. -/
def boundaryRecord : QKDRecord ℚ :=
  ⟨⟨none, some (1 / 1000000000), some (1 / 1000000000), some (11 / 100),
    some 1000, some 1000⟩, ⟨none⟩⟩

/-- A provenance entry used to exhibit duplicated field paths. -/
def dupEntry : ProvenanceEntry ℚ :=
  ⟨"detector.count_rate_Mcps", "count_rate_mcps: 5", 1⟩

/-- The JSON guard example of the spec. -/
def jsonSample : String := "\x7b\"a\":1\x7d"

/-- The CSV guard example of the spec. -/
def csvSample : String := "a,b,c\n1,2,3"

/-- A high-trust provenance list with pairwise distinct field paths. -/
def highSample : List (ProvenanceEntry ℚ) :=
  [⟨"security.qber_total", "qber_total: 0.02", 1⟩]

/-- A low-trust provenance list sharing one field path with `highSample`. -/
def lowSample : List (ProvenanceEntry ℚ) :=
  [⟨"security.qber_total", "enrichment qber", 1 / 2⟩,
   ⟨"meta.vendor", "enrichment vendor", 1 / 2⟩]

/-- A plain key-value log with one recognized key, one unmatched line,
one unrecognized key, and one CRLF-damaged line whose value is a bare
carriage return (routed to remaining by the ECMAScript regex). -/
def mixedLogs : String := "vendor: Acme\nplain note\nunknown_key: 5\nqber_total:\r"

theorem setField_lookup_self (K : Type) (fs : List (String × JValue K))
    (path : String) (v : JValue K) :
    (setField K fs path v).lookup path = some v := by
  induction fs with
  | nil => simp [setField, List.lookup]
  | cons head rest ih =>
    obtain ⟨p, w⟩ := head
    by_cases h : p = path
    · subst h
      simp [setField, List.lookup]
    · have hb : (path == p) = false := beq_eq_false_iff_ne.2 (Ne.symm h)
      simp [setField, h, List.lookup, hb, ih]

theorem setField_lookup_ne (K : Type) (fs : List (String × JValue K))
    (path p : String) (v : JValue K) (h : p ≠ path) :
    (setField K fs path v).lookup p = fs.lookup p := by
  have hb : (p == path) = false := beq_eq_false_iff_ne.2 h
  induction fs with
  | nil => simp [setField, List.lookup, hb]
  | cons head rest ih =>
    obtain ⟨pk, w⟩ := head
    by_cases h2 : pk = path
    · subst h2
      simp [setField, List.lookup, hb]
    · simp [setField, h2, List.lookup, ih]

theorem setField_lookup_isSome (K : Type) (fs : List (String × JValue K))
    (path p : String) (v : JValue K) (h : (fs.lookup p).isSome) :
    ((setField K fs path v).lookup p).isSome := by
  by_cases hp : p = path
  · subst hp
    simp [setField_lookup_self]
  · rw [setField_lookup_ne K fs path p v hp]
    exact h

theorem processLine_matched (K : Type) [LinearOrderedField K]
    (acc : PreParsedRecord K × List String) (line rawKey rawValue path : String)
    (hm : matchKeyValue line = some (rawKey, rawValue))
    (hk : keyMap (normalizeKey rawKey) = some path) :
    processLine K acc line =
      (⟨setField K acc.1.fields path (coerceValue K (jsTrim rawValue)),
        acc.1._provenance ++ [⟨path, jsTrim line, 1⟩]⟩, acc.2) := by
  simp [processLine, hm, hk]

theorem processLine_remain (K : Type) [LinearOrderedField K]
    (acc : PreParsedRecord K × List String) (line : String)
    (h : lineRemains line = true) :
    processLine K acc line = (acc.1, acc.2 ++ [line]) := by
  unfold lineRemains at h
  unfold processLine
  cases hm : matchKeyValue line with
  | none => simp
  | some kv =>
    obtain ⟨k, v⟩ := kv
    rw [hm] at h
    cases hk : keyMap (normalizeKey k) with
    | none => simp [hk]
    | some path => simp [hk] at h

theorem lineRemains_false (line : String) (h : lineRemains line = false) :
    ∃ k v path, matchKeyValue line = some (k, v)
      ∧ keyMap (normalizeKey k) = some path := by
  unfold lineRemains at h
  cases hm : matchKeyValue line with
  | none => rw [hm] at h; simp at h
  | some kv =>
    obtain ⟨k, v⟩ := kv
    rw [hm] at h
    simp only [Option.isNone_eq_false_iff, Option.isSome_iff_exists] at h
    obtain ⟨path, hk⟩ := h
    exact ⟨k, v, path, rfl, hk⟩

theorem scanLines_remaining (K : Type) [LinearOrderedField K]
    (ls : List String) (acc : PreParsedRecord K × List String) :
    (scanLines K acc ls).2 = acc.2 ++ ls.filter lineRemains := by
  induction ls generalizing acc with
  | nil => simp [scanLines]
  | cons line rest ih =>
    rw [scanLines, ih]
    by_cases h : lineRemains line
    · rw [processLine_remain K acc line h]
      simp [List.filter_cons, h]
    · obtain ⟨k, v, path, hm, hk⟩ := lineRemains_false line (by simpa using h)
      rw [processLine_matched K acc line k v path hm hk]
      simp [List.filter_cons, h]

theorem processLine_prov (K : Type) [LinearOrderedField K]
    (acc : PreParsedRecord K × List String) (line : String) :
    ∃ t, (processLine K acc line).1._provenance = acc.1._provenance ++ t := by
  unfold processLine
  cases hm : matchKeyValue line with
  | none => exact ⟨[], by simp⟩
  | some kv =>
    obtain ⟨k, v⟩ := kv
    cases hk : keyMap (normalizeKey k) with
    | none => exact ⟨[], by simp [hk]⟩
    | some path => exact ⟨[⟨path, jsTrim line, 1⟩], by simp [hk]⟩

theorem scanLines_prov (K : Type) [LinearOrderedField K]
    (ls : List String) (acc : PreParsedRecord K × List String) :
    ∃ t, (scanLines K acc ls).1._provenance = acc.1._provenance ++ t := by
  induction ls generalizing acc with
  | nil => exact ⟨[], by simp [scanLines]⟩
  | cons line rest ih =>
    rw [scanLines]
    obtain ⟨t0, h0⟩ := processLine_prov K acc line
    obtain ⟨t1, h1⟩ := ih (processLine K acc line)
    exact ⟨t0 ++ t1, by rw [h1, h0, List.append_assoc]⟩

theorem processLine_fields_isSome (K : Type) [LinearOrderedField K]
    (acc : PreParsedRecord K × List String) (line p : String)
    (h : (acc.1.fields.lookup p).isSome) :
    (((processLine K acc line).1.fields).lookup p).isSome := by
  unfold processLine
  cases hm : matchKeyValue line with
  | none => simpa using h
  | some kv =>
    obtain ⟨k, v⟩ := kv
    cases hk : keyMap (normalizeKey k) with
    | none => simpa [hk] using h
    | some path =>
      simpa [hk] using setField_lookup_isSome K acc.1.fields path p _ h

theorem scanLines_fields_isSome (K : Type) [LinearOrderedField K]
    (ls : List String) (acc : PreParsedRecord K × List String) (p : String)
    (h : (acc.1.fields.lookup p).isSome) :
    (((scanLines K acc ls).1.fields).lookup p).isSome := by
  induction ls generalizing acc with
  | nil => simpa [scanLines] using h
  | cons line rest ih =>
    rw [scanLines]
    exact ih _ (processLine_fields_isSome K acc line p h)

theorem scanLines_entry_mem (K : Type) [LinearOrderedField K]
    (ls : List String) (acc : PreParsedRecord K × List String)
    (line rawKey rawValue path : String)
    (hline : line ∈ ls)
    (hm : matchKeyValue line = some (rawKey, rawValue))
    (hk : keyMap (normalizeKey rawKey) = some path) :
    (⟨path, jsTrim line, (1 : K)⟩ : ProvenanceEntry K)
        ∈ (scanLines K acc ls).1._provenance
      ∧ (((scanLines K acc ls).1.fields).lookup path).isSome := by
  induction ls generalizing acc with
  | nil => cases hline
  | cons l rest ih =>
    rcases List.mem_cons.1 hline with rfl | hmem
    · rw [scanLines, processLine_matched K acc line rawKey rawValue path hm hk]
      constructor
      · obtain ⟨t, ht⟩ := scanLines_prov K rest
          (⟨setField K acc.1.fields path (coerceValue K (jsTrim rawValue)),
            acc.1._provenance ++ [⟨path, jsTrim line, 1⟩]⟩, acc.2)
        rw [ht]
        simp
      · apply scanLines_fields_isSome
        simp [setField_lookup_self]
    · rw [scanLines]
      exact ih (processLine K acc l) hmem

theorem clamp_eq_max (K : Type) [LinearOrderedField K] (x : K) :
    (if x < 0 then (0 : K) else x) = max 0 x := by
  rcases lt_or_le x 0 with h | h
  · simp [h, max_eq_left h.le]
  · simp [not_lt.2 h, max_eq_right h]

theorem calc_resolved (K : Type) [LinearOrderedField K] (ops : MathOps K)
    (r : QKDRecord K) (s q n es ec : K)
    (hS : (resolveInputs K r).S_bps = some s)
    (hQ : (resolveInputs K r).Q = some q)
    (hN : (resolveInputs K r).N = some n)
    (hes : (resolveInputs K r).eps_sec = some es)
    (hec : (resolveInputs K r).eps_cor = some ec) :
    calculateSecureSKR_deterministic K ops r =
      (if q > 11 / 100 then
        ⟨skrEquation, [], [], none, some (.securityThreshold q),
         (resolveInputs K r).trace
           ++ inputTraceEntries K s q (resolveInputs K r).beta n es ec⟩
      else
        ⟨skrEquation,
         [("S_bps", s), ("Q", q), ("beta", (resolveInputs K r).beta), ("N", n),
          ("eps_sec", es), ("eps_cor", ec)],
         [("h2_Q", h2 K ops q),
          ("leakage_ec_bits", n * h2 K ops q * (resolveInputs K r).beta),
          ("finite_penalty_bits",
           2 * ops.log2 (1 / ec)
             + 4 * ops.log2 (1 / (2 * es)) * ops.sqrt (n * q * (1 - q)))],
         some (if (n * (1 - h2 K ops q) - n * h2 K ops q * (resolveInputs K r).beta
                 - (2 * ops.log2 (1 / ec)
                     + 4 * ops.log2 (1 / (2 * es)) * ops.sqrt (n * q * (1 - q))))
                 / n * s < 0 then 0
               else (n * (1 - h2 K ops q) - n * h2 K ops q * (resolveInputs K r).beta
                 - (2 * ops.log2 (1 / ec)
                     + 4 * ops.log2 (1 / (2 * es)) * ops.sqrt (n * q * (1 - q))))
                 / n * s),
         none,
         (resolveInputs K r).trace
           ++ inputTraceEntries K s q (resolveInputs K r).beta n es ec
           ++ [⟨"h₂(Q)", h2 K ops q, some "-Q*log₂(Q) - (1-Q)*log₂(1-Q)"⟩,
               ⟨"Leak_EC", n * h2 K ops q * (resolveInputs K r).beta,
                some "N * h₂(Q) * β"⟩,
               ⟨"Δ (Penalty)",
                2 * ops.log2 (1 / ec)
                  + 4 * ops.log2 (1 / (2 * es)) * ops.sqrt (n * q * (1 - q)),
                some "Finite-size penalty term"⟩,
               ⟨"R_secure_bits",
                n * (1 - h2 K ops q) - n * h2 K ops q * (resolveInputs K r).beta
                  - (2 * ops.log2 (1 / ec)
                      + 4 * ops.log2 (1 / (2 * es)) * ops.sqrt (n * q * (1 - q))),
                some "N*(1 - h₂(Q)) - Leak_EC - Δ"⟩,
               ⟨"R_secure_bps",
                if (n * (1 - h2 K ops q) - n * h2 K ops q * (resolveInputs K r).beta
                    - (2 * ops.log2 (1 / ec)
                        + 4 * ops.log2 (1 / (2 * es)) * ops.sqrt (n * q * (1 - q))))
                    / n * s < 0 then 0
                  else (n * (1 - h2 K ops q) - n * h2 K ops q * (resolveInputs K r).beta
                    - (2 * ops.log2 (1 / ec)
                        + 4 * ops.log2 (1 / (2 * es)) * ops.sqrt (n * q * (1 - q))))
                    / n * s,
                some "(R_secure_bits / N) * S_bps (clamped to 0)"⟩]⟩) := by
  rw [calculateSecureSKR_deterministic.eq_def]
  simp only [hS, hQ, hN, hes, hec, List.append_assoc]

theorem missing_nil_of_all_some (K : Type) [DecidableEq K]
    (res : ResolvedInputs K) (s q n es ec : K)
    (hS : res.S_bps = some s) (hQ : res.Q = some q) (hN : res.N = some n)
    (hes : res.eps_sec = some es) (hec : res.eps_cor = some ec) :
    missingFields K res = [] := by
  simp [missingFields, hS, hQ, hN, hes, hec]

theorem calc_missing (K : Type) [LinearOrderedField K] (ops : MathOps K)
    (r : QKDRecord K)
    (h : missingFields K (resolveInputs K r) ≠ []) :
    calculateSecureSKR_deterministic K ops r =
      ⟨skrEquation, [], [], none,
       some (.validation (missingFields K (resolveInputs K r))),
       (resolveInputs K r).trace⟩ := by
  rw [calculateSecureSKR_deterministic.eq_def]
  rcases hS : (resolveInputs K r).S_bps with _ | s
  · rcases hQ : (resolveInputs K r).Q with _ | q <;>
      rcases hN : (resolveInputs K r).N with _ | n <;>
      rcases hes : (resolveInputs K r).eps_sec with _ | es <;>
      rcases hec : (resolveInputs K r).eps_cor with _ | ec <;>
      simp [hS, hQ, hN, hes, hec]
  · rcases hQ : (resolveInputs K r).Q with _ | q
    · rcases hN : (resolveInputs K r).N with _ | n <;>
        rcases hes : (resolveInputs K r).eps_sec with _ | es <;>
        rcases hec : (resolveInputs K r).eps_cor with _ | ec <;>
        simp [hS, hQ, hN, hes, hec]
    · rcases hN : (resolveInputs K r).N with _ | n
      · rcases hes : (resolveInputs K r).eps_sec with _ | es <;>
          rcases hec : (resolveInputs K r).eps_cor with _ | ec <;>
          simp [hS, hQ, hN, hes, hec]
      · rcases hes : (resolveInputs K r).eps_sec with _ | es
        · rcases hec : (resolveInputs K r).eps_cor with _ | ec <;>
            simp [hS, hQ, hN, hes, hec]
        · rcases hec : (resolveInputs K r).eps_cor with _ | ec
          · simp [hS, hQ, hN, hes, hec]
          · exact absurd
              (missing_nil_of_all_some K (resolveInputs K r) s q n es ec
                hS hQ hN hes hec) h

theorem mem_missing_S (K : Type) [DecidableEq K] (res : ResolvedInputs K) :
    "security.sifted_key_rate_bps" ∈ missingFields K res ↔ res.S_bps = none := by
  unfold missingFields
  split_ifs <;> simp_all

theorem mem_missing_Q (K : Type) [DecidableEq K] (res : ResolvedInputs K) :
    "security.qber_total" ∈ missingFields K res ↔ res.Q = none := by
  unfold missingFields
  split_ifs <;> simp_all

theorem mem_missing_N (K : Type) [DecidableEq K] (res : ResolvedInputs K) :
    "security.sifted_bits" ∈ missingFields K res ↔ res.N = none := by
  unfold missingFields
  split_ifs <;> simp_all

theorem mem_missing_es (K : Type) [DecidableEq K] (res : ResolvedInputs K) :
    "security.epsilon_sec (or epsilon)" ∈ missingFields K res
      ↔ res.eps_sec = none := by
  unfold missingFields
  split_ifs <;> simp_all

theorem mem_missing_ec (K : Type) [DecidableEq K] (res : ResolvedInputs K) :
    "security.epsilon_cor (or epsilon)" ∈ missingFields K res
      ↔ res.eps_cor = none := by
  unfold missingFields
  split_ifs <;> simp_all

theorem resolved_of_missing_nil (K : Type) [DecidableEq K]
    (res : ResolvedInputs K) (h : missingFields K res = []) :
    (∃ s, res.S_bps = some s) ∧ (∃ q, res.Q = some q) ∧ (∃ n, res.N = some n)
      ∧ (∃ es, res.eps_sec = some es) ∧ (∃ ec, res.eps_cor = some ec) := by
  refine ⟨?_, ?_, ?_, ?_, ?_⟩
  · rcases hx : res.S_bps with _ | s
    · have hm := (mem_missing_S K res).2 hx
      rw [h] at hm
      exact absurd hm (List.not_mem_nil _)
    · exact ⟨s, rfl⟩
  · rcases hx : res.Q with _ | q
    · have hm := (mem_missing_Q K res).2 hx
      rw [h] at hm
      exact absurd hm (List.not_mem_nil _)
    · exact ⟨q, rfl⟩
  · rcases hx : res.N with _ | n
    · have hm := (mem_missing_N K res).2 hx
      rw [h] at hm
      exact absurd hm (List.not_mem_nil _)
    · exact ⟨n, rfl⟩
  · rcases hx : res.eps_sec with _ | es
    · have hm := (mem_missing_es K res).2 hx
      rw [h] at hm
      exact absurd hm (List.not_mem_nil _)
    · exact ⟨es, rfl⟩
  · rcases hx : res.eps_cor with _ | ec
    · have hm := (mem_missing_ec K res).2 hx
      rw [h] at hm
      exact absurd hm (List.not_mem_nil _)
    · exact ⟨ec, rfl⟩

theorem calc_trace_extends (K : Type) [LinearOrderedField K] (ops : MathOps K)
    (r : QKDRecord K) :
    ∃ extra, (calculateSecureSKR_deterministic K ops r).trace =
      (resolveInputs K r).trace ++ extra := by
  by_cases hmiss : missingFields K (resolveInputs K r) = []
  · obtain ⟨⟨s, hS⟩, ⟨q, hQ⟩, ⟨n, hN⟩, ⟨es, hes⟩, ⟨ec, hec⟩⟩ :=
      resolved_of_missing_nil K (resolveInputs K r) hmiss
    rw [calc_resolved K ops r s q n es ec hS hQ hN hes hec]
    by_cases hq : q > 11 / 100
    · rw [if_pos hq]
      exact ⟨_, rfl⟩
    · rw [if_neg hq]
      exact ⟨_, by rw [List.append_assoc]⟩
  · rw [calc_missing K ops r hmiss]
    exact ⟨[], by simp⟩

/-- C1: for every canonical record in which S_bps, Q, N, eps_sec and
eps_cor all resolve (directly or via the documented defaults) and
`Q ≤ 0.11`, the calculator returns no error,
`R_secure_bps = max 0 (((N*(1 - h₂(Q)) - N*h₂(Q)*β - Δ) / N) * S_bps)`
with `Δ = 2*log2(1/eps_cor) + 4*log2(1/(2*eps_sec))*sqrt(N*Q*(1-Q))`, and
the intermediates mapping holds exactly these entropy, leakage and penalty
values. -/
theorem C1_secure_rate_formula (K : Type) [LinearOrderedField K]
    (ops : MathOps K) (r : QKDRecord K) (s q n es ec : K)
    (hS : (resolveInputs K r).S_bps = some s)
    (hQ : (resolveInputs K r).Q = some q)
    (hN : (resolveInputs K r).N = some n)
    (hes : (resolveInputs K r).eps_sec = some es)
    (hec : (resolveInputs K r).eps_cor = some ec)
    (hq : q ≤ 11 / 100) :
    (calculateSecureSKR_deterministic K ops r).error = none
      ∧ (calculateSecureSKR_deterministic K ops r).R_secure_bps =
          some (max 0
            ((n * (1 - h2 K ops q) - n * h2 K ops q * (resolveInputs K r).beta
              - (2 * ops.log2 (1 / ec)
                  + 4 * ops.log2 (1 / (2 * es)) * ops.sqrt (n * q * (1 - q))))
              / n * s))
      ∧ (calculateSecureSKR_deterministic K ops r).intermediates =
          [("h2_Q", h2 K ops q),
           ("leakage_ec_bits", n * h2 K ops q * (resolveInputs K r).beta),
           ("finite_penalty_bits",
            2 * ops.log2 (1 / ec)
              + 4 * ops.log2 (1 / (2 * es)) * ops.sqrt (n * q * (1 - q)))] := by
  rw [calc_resolved K ops r s q n es ec hS hQ hN hes hec, if_neg (not_lt.2 hq)]
  exact ⟨rfl, by rw [clamp_eq_max], rfl⟩

/-- C2: with all required inputs resolved, the calculator fails with the
security-limit error carrying the numeric Q value, null rate and the trace
collected so far, precisely when `Q > 0.11`; at `Q ≤ 0.11` (boundary
included) it passes the check and proceeds to the entropy computation. -/
theorem C2_threshold_boundary (K : Type) [LinearOrderedField K]
    (ops : MathOps K) (r : QKDRecord K) (s q n es ec : K)
    (hS : (resolveInputs K r).S_bps = some s)
    (hQ : (resolveInputs K r).Q = some q)
    (hN : (resolveInputs K r).N = some n)
    (hes : (resolveInputs K r).eps_sec = some es)
    (hec : (resolveInputs K r).eps_cor = some ec) :
    ((calculateSecureSKR_deterministic K ops r).error =
        some (.securityThreshold q) ↔ q > 11 / 100)
      ∧ (q > 11 / 100 →
          (calculateSecureSKR_deterministic K ops r).R_secure_bps = none
            ∧ (calculateSecureSKR_deterministic K ops r).trace =
                (resolveInputs K r).trace
                  ++ inputTraceEntries K s q (resolveInputs K r).beta n es ec)
      ∧ (¬ q > 11 / 100 →
          (calculateSecureSKR_deterministic K ops r).error = none
            ∧ ∃ t ∈ (calculateSecureSKR_deterministic K ops r).trace,
                t.step = "h₂(Q)") := by
  rw [calc_resolved K ops r s q n es ec hS hQ hN hes hec]
  by_cases hq : q > 11 / 100
  · rw [if_pos hq]
    exact ⟨by simp [hq], fun _ => ⟨rfl, rfl⟩, fun h => absurd hq h⟩
  · rw [if_neg hq]
    refine ⟨by simp [hq], fun h => absurd h hq, fun _ => ⟨rfl, ?_⟩⟩
    exact ⟨⟨"h₂(Q)", h2 K ops q, some "-Q*log₂(Q) - (1-Q)*log₂(1-Q)"⟩,
      by simp, rfl⟩

/-- C3: whenever one or more of the five required fields remain unresolved
after default substitution, the calculator returns a null rate and an
input-validation error listing the name of every missing field (each of
the five names appears exactly when its field is unresolved), with empty
inputs; for an all-null security section the error lists all five names. -/
theorem C3_missing_fields (K : Type) [LinearOrderedField K]
    (ops : MathOps K) (r : QKDRecord K) :
    (missingFields K (resolveInputs K r) ≠ [] →
        (calculateSecureSKR_deterministic K ops r).R_secure_bps = none
          ∧ (calculateSecureSKR_deterministic K ops r).error =
              some (.validation (missingFields K (resolveInputs K r)))
          ∧ (calculateSecureSKR_deterministic K ops r).inputs = [])
      ∧ ("security.sifted_key_rate_bps" ∈ missingFields K (resolveInputs K r)
          ↔ (resolveInputs K r).S_bps = none)
      ∧ ("security.qber_total" ∈ missingFields K (resolveInputs K r)
          ↔ (resolveInputs K r).Q = none)
      ∧ ("security.sifted_bits" ∈ missingFields K (resolveInputs K r)
          ↔ (resolveInputs K r).N = none)
      ∧ ("security.epsilon_sec (or epsilon)" ∈ missingFields K (resolveInputs K r)
          ↔ (resolveInputs K r).eps_sec = none)
      ∧ ("security.epsilon_cor (or epsilon)" ∈ missingFields K (resolveInputs K r)
          ↔ (resolveInputs K r).eps_cor = none)
      ∧ (r.security = ⟨none, none, none, none, none, none⟩ →
          missingFields K (resolveInputs K r) =
            ["security.sifted_key_rate_bps", "security.qber_total",
             "security.sifted_bits", "security.epsilon_sec (or epsilon)",
             "security.epsilon_cor (or epsilon)"]) := by
  refine ⟨fun h => ?_, mem_missing_S K _, mem_missing_Q K _, mem_missing_N K _,
    mem_missing_es K _, mem_missing_ec K _, fun hsec => ?_⟩
  · rw [calc_missing K ops r h]
    exact ⟨rfl, rfl, rfl⟩
  · simp [resolveInputs, missingFields, hsec]

/-- C4: the calculator is total over every canonical record; failures are
exactly the results with a null rate and are captured in the error field,
and every result extends the resolution-phase trace, a failed result's
trace being either exactly the resolution trace (validation failure) or
the resolution trace followed by the six resolved-input entries
(threshold failure) — partial trace is never discarded. -/
theorem C4_total_failure_capture (K : Type) [LinearOrderedField K]
    (ops : MathOps K) (r : QKDRecord K) :
    ((calculateSecureSKR_deterministic K ops r).R_secure_bps = none
        ↔ ((calculateSecureSKR_deterministic K ops r).error).isSome)
      ∧ (∃ extra, (calculateSecureSKR_deterministic K ops r).trace =
          (resolveInputs K r).trace ++ extra)
      ∧ (((calculateSecureSKR_deterministic K ops r).error).isSome →
          (calculateSecureSKR_deterministic K ops r).trace =
              (resolveInputs K r).trace
            ∨ ∃ s q n es ec,
                (resolveInputs K r).S_bps = some s
                  ∧ (resolveInputs K r).Q = some q
                  ∧ (resolveInputs K r).N = some n
                  ∧ (resolveInputs K r).eps_sec = some es
                  ∧ (resolveInputs K r).eps_cor = some ec
                  ∧ (calculateSecureSKR_deterministic K ops r).trace =
                      (resolveInputs K r).trace
                        ++ inputTraceEntries K s q (resolveInputs K r).beta
                            n es ec) := by
  by_cases hmiss : missingFields K (resolveInputs K r) = []
  · obtain ⟨⟨s, hS⟩, ⟨q, hQ⟩, ⟨n, hN⟩, ⟨es, hes⟩, ⟨ec, hec⟩⟩ :=
      resolved_of_missing_nil K (resolveInputs K r) hmiss
    rw [calc_resolved K ops r s q n es ec hS hQ hN hes hec]
    by_cases hq : q > 11 / 100
    · rw [if_pos hq]
      exact ⟨by simp, ⟨_, rfl⟩,
        fun _ => Or.inr ⟨s, q, n, es, ec, hS, hQ, hN, hes, hec, rfl⟩⟩
    · rw [if_neg hq]
      exact ⟨by simp, ⟨_, by rw [List.append_assoc]⟩, fun h => by simp at h⟩
  · rw [calc_missing K ops r hmiss]
    exact ⟨by simp, ⟨[], by simp⟩, fun _ => Or.inl rfl⟩

/-- C10: every failing result of the calculator carries an empty inputs
mapping and an empty intermediates mapping — even the threshold failure,
which occurs after all six inputs were resolved and traced, reports the
resolved values only through the trace. -/
theorem C10_failure_empty_inputs (K : Type) [LinearOrderedField K]
    (ops : MathOps K) (r : QKDRecord K) :
    (((calculateSecureSKR_deterministic K ops r).error).isSome →
        (calculateSecureSKR_deterministic K ops r).inputs = []
          ∧ (calculateSecureSKR_deterministic K ops r).intermediates = [])
      ∧ (∀ q0, (calculateSecureSKR_deterministic K ops r).error =
            some (.securityThreshold q0) →
          ∃ s n es ec,
            (calculateSecureSKR_deterministic K ops r).trace =
              (resolveInputs K r).trace
                ++ inputTraceEntries K s q0 (resolveInputs K r).beta n es ec) := by
  by_cases hmiss : missingFields K (resolveInputs K r) = []
  · obtain ⟨⟨s, hS⟩, ⟨q, hQ⟩, ⟨n, hN⟩, ⟨es, hes⟩, ⟨ec, hec⟩⟩ :=
      resolved_of_missing_nil K (resolveInputs K r) hmiss
    rw [calc_resolved K ops r s q n es ec hS hQ hN hes hec]
    by_cases hq : q > 11 / 100
    · rw [if_pos hq]
      refine ⟨fun _ => ⟨rfl, rfl⟩, fun q0 hq0 => ?_⟩
      have : q = q0 := by
        have := Option.some.inj hq0
        cases this
        rfl
      subst this
      exact ⟨s, n, es, ec, rfl⟩
    · rw [if_neg hq]
      exact ⟨fun h => by simp at h, fun q0 hq0 => by simp at hq0⟩
  · rw [calc_missing K ops r hmiss]
    exact ⟨fun _ => ⟨rfl, rfl⟩, fun q0 hq0 => by simp at hq0⟩

theorem resolveInputs_eps_subst (K : Type) [LinearOrderedField K]
    (r : QKDRecord K) (e : K)
    (he : r.security.epsilon = some e) (hne : e ≠ 0)
    (hs : r.security.epsilon_sec = none) (hc : r.security.epsilon_cor = none) :
    (resolveInputs K r).eps_sec = some e
      ∧ (resolveInputs K r).eps_cor = some e
      ∧ ∃ rest, (resolveInputs K r).trace =
          ⟨"Epsilon", e, some "Used single epsilon for both sec/cor"⟩ :: rest := by
  unfold resolveInputs
  rw [he, hs, hc]
  simp [hne]

theorem resolveInputs_no_subst (K : Type) [LinearOrderedField K]
    (r : QKDRecord K)
    (h : r.security.epsilon_sec ≠ none ∨ r.security.epsilon_cor ≠ none) :
    (resolveInputs K r).eps_sec = r.security.epsilon_sec
      ∧ (resolveInputs K r).eps_cor = r.security.epsilon_cor
      ∧ ∀ t ∈ (resolveInputs K r).trace, t.step ≠ "Epsilon" := by
  unfold resolveInputs
  have hcond : ∀ e : K, ¬ (e ≠ 0 ∧ r.security.epsilon_sec = none
      ∧ r.security.epsilon_cor = none) := by
    rintro e ⟨_, hs, hc⟩
    rcases h with h | h
    · exact h hs
    · exact h hc
  cases he : r.security.epsilon with
  | none =>
    simp only [he]
    refine ⟨trivial, trivial, ?_⟩
    cases hb : r.dv_specific.ec_efficiency_beta with
    | none => simp
    | some b => simp
  | some e =>
    simp only [he, if_neg (hcond e)]
    refine ⟨trivial, trivial, ?_⟩
    cases hb : r.dv_specific.ec_efficiency_beta with
    | none => simp
    | some b => simp

/-- C5 counterexample: a record whose `security.epsilon` is present but
zero, with `epsilon_sec`/`epsilon_cor` both absent, gets no substitution
(the JS truthiness guard rejects `0`): no Epsilon trace entry is recorded
and both epsilon fields are reported missing, contradicting the claim that
presence of `security.epsilon` suffices. -/
theorem C5_counterexample :
    zeroEpsilonRecord.security.epsilon = some 0
      ∧ zeroEpsilonRecord.security.epsilon_sec = none
      ∧ zeroEpsilonRecord.security.epsilon_cor = none
      ∧ (calculateSecureSKR_deterministic ℚ qOps zeroEpsilonRecord).trace = []
      ∧ (calculateSecureSKR_deterministic ℚ qOps zeroEpsilonRecord).error =
          some (.validation ["security.epsilon_sec (or epsilon)",
                             "security.epsilon_cor (or epsilon)"]) := by
  decide

/-- C5 amended: if `security.epsilon_sec` and `security.epsilon_cor` are
both absent and `security.epsilon` is present AND NONZERO (JS truthiness),
the calculator resolves both epsilons to it and records the substitution
trace entry first; if at least one of the pair is present, no substitution
from `security.epsilon` occurs and no Epsilon entry is traced. -/
theorem C5_single_epsilon_substitution (K : Type) [LinearOrderedField K]
    (ops : MathOps K) (r : QKDRecord K) (e : K) :
    (r.security.epsilon = some e → e ≠ 0 → r.security.epsilon_sec = none →
        r.security.epsilon_cor = none →
        (resolveInputs K r).eps_sec = some e
          ∧ (resolveInputs K r).eps_cor = some e
          ∧ ((calculateSecureSKR_deterministic K ops r).trace).head? =
              some ⟨"Epsilon", e, some "Used single epsilon for both sec/cor"⟩)
      ∧ ((r.security.epsilon_sec ≠ none ∨ r.security.epsilon_cor ≠ none) →
          (resolveInputs K r).eps_sec = r.security.epsilon_sec
            ∧ (resolveInputs K r).eps_cor = r.security.epsilon_cor
            ∧ ∀ t ∈ (resolveInputs K r).trace, t.step ≠ "Epsilon") := by
  refine ⟨fun he hne hs hc => ?_, resolveInputs_no_subst K r⟩
  obtain ⟨h1, h2, rest, h3⟩ := resolveInputs_eps_subst K r e he hne hs hc
  refine ⟨h1, h2, ?_⟩
  obtain ⟨extra, hext⟩ := calc_trace_extends K ops r
  rw [hext, h3]
  rfl

/-- C6 counterexample: for the line with leading whitespace
"  vendor: Acme" the recorded provenance snippet is the TRIMMED line
"vendor: Acme" (source stores `line.trim()`), not the original line with
its leading whitespace as the claim states. -/
theorem C6_counterexample :
    (preParseWithRegex ℚ "  vendor: Acme").preParsedData._provenance =
        [⟨"meta.vendor", "vendor: Acme", 1⟩]
      ∧ "vendor: Acme" ≠ "  vendor: Acme" := by
  decide

/-- C6 amended: for every non-guarded input, each line matching
"key: value" whose normalised key is in the canonical table gets its
FieldPath set in the partial record, together with a provenance entry of
confidence 1.0 whose snippet equals the line with surrounding whitespace
trimmed. -/
theorem C6_field_capture (K : Type) [LinearOrderedField K]
    (logs line rawKey rawValue path : String)
    (hg : guardTriggered logs = false)
    (hline : line ∈ splitLines logs)
    (hm : matchKeyValue line = some (rawKey, rawValue))
    (hk : keyMap (normalizeKey rawKey) = some path) :
    ((((preParseWithRegex K logs).preParsedData.fields).lookup path).isSome)
      ∧ ∃ e ∈ (preParseWithRegex K logs).preParsedData._provenance,
          e.field = path ∧ e.confidence_score = 1 ∧ e.snippet = jsTrim line := by
  unfold preParseWithRegex
  simp only [hg, Bool.false_eq_true, if_false]
  obtain ⟨hmem, hsome⟩ := scanLines_entry_mem K (splitLines logs)
    (⟨[], []⟩, []) line rawKey rawValue path hline hm hk
  exact ⟨hsome, ⟨path, jsTrim line, 1⟩, hmem, rfl, rfl, rfl⟩

/-- C7: for every input hitting the JSON/CSV guard (trimmed input wrapped
in curly braces or square brackets, or a comma in the first line), the
extractor is a no-op: empty partial record, empty provenance, and the full
original text returned unchanged as remaining. -/
theorem C7_guard_noop (K : Type) [LinearOrderedField K] (logs : String)
    (h : guardTriggered logs = true) :
    preParseWithRegex K logs = ⟨⟨[], []⟩, logs⟩ := by
  unfold preParseWithRegex
  simp [h]

/-- C8 counterexample: when the high-trust provenance list itself repeats
a field path (possible, since the alias keys count_rate_mcps and
detector_count_rate_mcps both map to detector.count_rate_Mcps), the
merged list repeats that path, refuting the unconditional at-most-once
claim; the concatenation-filter shape still holds. -/
theorem C8_counterexample :
    reconcileProvenance ℚ [dupEntry, dupEntry] [] = [dupEntry, dupEntry]
      ∧ ¬ (((reconcileProvenance ℚ [dupEntry, dupEntry] []).map
            (fun p => p.field)).Nodup) := by
  decide

/-- C8 amended: the merged provenance always equals the high-trust entries
in order followed by the low-trust entries (in order) whose field paths
do not occur among the high-trust field paths; provided each input list
mentions each field path at most once, the merged list mentions each field
path at most once. -/
theorem C8_provenance_merge (K : Type) (high low : List (ProvenanceEntry K)) :
    reconcileProvenance K high low =
        high ++ low.filter
          (fun p => decide (p.field ∉ high.map (fun q0 => q0.field)))
      ∧ ((high.map (fun p => p.field)).Nodup →
          (low.map (fun p => p.field)).Nodup →
          ((reconcileProvenance K high low).map (fun p => p.field)).Nodup) := by
  refine ⟨rfl, fun hh hl => ?_⟩
  unfold reconcileProvenance
  rw [List.map_append]
  refine List.Nodup.append hh
    (List.Nodup.sublist (List.Sublist.map _ (List.filter_sublist low)) hl) ?_
  intro a ha hb
  obtain ⟨p, hp, rfl⟩ := List.mem_map.1 hb
  have hfilter := List.of_mem_filter hp
  simp only [decide_eq_true_eq] at hfilter
  exact hfilter ha

/-- C9 counterexample: for the input consisting of an empty first line and
"foo", both lines are routed to remaining, but the returned remaining text
is the TRIMMED join "foo" rather than the verbatim join of the lines,
refuting the claim that remaining consists exactly of those lines. -/
theorem C9_counterexample :
    (preParseWithRegex ℚ "\nfoo").remainingLogs = "foo"
      ∧ joinLines ((splitLines "\nfoo").filter lineRemains) = "\nfoo"
      ∧ "foo" ≠ "\nfoo" := by
  decide

/-- C9 amended: for every non-guarded input, the remaining text equals the
input lines that do not match the pattern or whose key is not in the
table, joined in original order by newlines, with the joined result then
trimmed of leading and trailing whitespace. -/
theorem C9_remaining_lines (K : Type) [LinearOrderedField K] (logs : String)
    (hg : guardTriggered logs = false) :
    (preParseWithRegex K logs).remainingLogs =
      jsTrim (joinLines ((splitLines logs).filter lineRemains)) := by
  unfold preParseWithRegex
  simp only [hg, Bool.false_eq_true, if_false]
  rw [scanLines_remaining]
  simp

/-- Witness for C1 at the spec's numeric round-trip example record. -/
theorem C1_witness :
    (resolveInputs ℚ exampleRecord).S_bps = some 180000
      ∧ (resolveInputs ℚ exampleRecord).Q = some (13 / 500)
      ∧ (resolveInputs ℚ exampleRecord).N = some 1500000
      ∧ (resolveInputs ℚ exampleRecord).eps_sec = some (1 / 1000000000)
      ∧ (resolveInputs ℚ exampleRecord).eps_cor = some (1 / 1000000000)
      ∧ (13 / 500 : ℚ) ≤ 11 / 100
      ∧ (calculateSecureSKR_deterministic ℚ qOps exampleRecord).error = none :=
  ⟨rfl, rfl, rfl, rfl, rfl, by norm_num,
   (C1_secure_rate_formula ℚ qOps exampleRecord 180000 (13 / 500) 1500000
      (1 / 1000000000) (1 / 1000000000) rfl rfl rfl rfl rfl
      (by norm_num)).1⟩

/-- Witness for C2 at the exact threshold boundary `Q = 0.11`: the check
passes. -/
theorem C2_witness :
    (resolveInputs ℚ boundaryRecord).Q = some (11 / 100)
      ∧ ¬ ((11 / 100 : ℚ) > 11 / 100)
      ∧ (calculateSecureSKR_deterministic ℚ qOps boundaryRecord).error = none :=
  ⟨rfl, by norm_num,
   ((C2_threshold_boundary ℚ qOps boundaryRecord 1000 (11 / 100) 1000
      (1 / 1000000000) (1 / 1000000000) rfl rfl rfl rfl rfl).2.2
      (by norm_num)).1⟩

/-- Witness for C3 at the all-null security section. -/
theorem C3_witness :
    missingFields ℚ (resolveInputs ℚ emptySecurityRecord) ≠ []
      ∧ (calculateSecureSKR_deterministic ℚ qOps emptySecurityRecord).R_secure_bps
          = none
      ∧ (calculateSecureSKR_deterministic ℚ qOps emptySecurityRecord).error =
          some (.validation
            (missingFields ℚ (resolveInputs ℚ emptySecurityRecord)))
      ∧ (calculateSecureSKR_deterministic ℚ qOps emptySecurityRecord).inputs
          = [] := by
  have h := (C3_missing_fields ℚ qOps emptySecurityRecord).1 (by decide)
  exact ⟨by decide, h.1, h.2.1, h.2.2⟩

/-- Witness for C4 at a failing record: the error is set and the partial
trace is preserved. -/
theorem C4_witness :
    ((calculateSecureSKR_deterministic ℚ qOps emptySecurityRecord).error).isSome
      ∧ ((calculateSecureSKR_deterministic ℚ qOps emptySecurityRecord).trace =
            (resolveInputs ℚ emptySecurityRecord).trace
          ∨ ∃ s q n es ec,
              (resolveInputs ℚ emptySecurityRecord).S_bps = some s
                ∧ (resolveInputs ℚ emptySecurityRecord).Q = some q
                ∧ (resolveInputs ℚ emptySecurityRecord).N = some n
                ∧ (resolveInputs ℚ emptySecurityRecord).eps_sec = some es
                ∧ (resolveInputs ℚ emptySecurityRecord).eps_cor = some ec
                ∧ (calculateSecureSKR_deterministic ℚ qOps
                      emptySecurityRecord).trace =
                    (resolveInputs ℚ emptySecurityRecord).trace
                      ++ inputTraceEntries ℚ s q
                          (resolveInputs ℚ emptySecurityRecord).beta n es ec) :=
  ⟨by decide,
   (C4_total_failure_capture ℚ qOps emptySecurityRecord).2.2 (by decide)⟩

/-- Witness for C5 (amended) at a record with a nonzero single epsilon. -/
theorem C5_witness :
    singleEpsilonRecord.security.epsilon = some (1 / 1000000000)
      ∧ (1 / 1000000000 : ℚ) ≠ 0
      ∧ singleEpsilonRecord.security.epsilon_sec = none
      ∧ singleEpsilonRecord.security.epsilon_cor = none
      ∧ (resolveInputs ℚ singleEpsilonRecord).eps_sec = some (1 / 1000000000)
      ∧ (resolveInputs ℚ singleEpsilonRecord).eps_cor = some (1 / 1000000000) := by
  have h := (C5_single_epsilon_substitution ℚ qOps singleEpsilonRecord
    (1 / 1000000000)).1 rfl (by norm_num) rfl rfl
  exact ⟨rfl, by norm_num, rfl, rfl, h.1, h.2.1⟩

/-- Witness for C6 (amended) at a recognized key with leading whitespace. -/
theorem C6_witness :
    guardTriggered "  vendor: Acme" = false
      ∧ ((((preParseWithRegex ℚ "  vendor: Acme").preParsedData.fields).lookup
            "meta.vendor").isSome)
      ∧ ∃ e ∈ (preParseWithRegex ℚ "  vendor: Acme").preParsedData._provenance,
          e.field = "meta.vendor" ∧ e.confidence_score = 1
            ∧ e.snippet = jsTrim "  vendor: Acme" := by
  have h := C6_field_capture ℚ "  vendor: Acme" "  vendor: Acme" "  vendor"
    " Acme" "meta.vendor" (by decide) (by decide) (by decide) (by decide)
  exact ⟨by decide, h.1, h.2⟩

/-- Witness for C7 at the two guard examples of the spec. -/
theorem C7_witness :
    guardTriggered jsonSample = true
      ∧ guardTriggered csvSample = true
      ∧ preParseWithRegex ℚ jsonSample = ⟨⟨[], []⟩, jsonSample⟩
      ∧ preParseWithRegex ℚ csvSample = ⟨⟨[], []⟩, csvSample⟩ :=
  ⟨by decide, by decide, C7_guard_noop ℚ jsonSample (by decide),
   C7_guard_noop ℚ csvSample (by decide)⟩

/-- Witness for C8 (amended) on duplicate-free provenance lists sharing a
field path. -/
theorem C8_witness :
    (highSample.map (fun p => p.field)).Nodup
      ∧ (lowSample.map (fun p => p.field)).Nodup
      ∧ ((reconcileProvenance ℚ highSample lowSample).map
          (fun p => p.field)).Nodup :=
  ⟨by decide, by decide,
   (C8_provenance_merge ℚ highSample lowSample).2 (by decide) (by decide)⟩

/-- Witness for C9 (amended) on a mixed key-value log. -/
theorem C9_witness :
    guardTriggered mixedLogs = false
      ∧ (preParseWithRegex ℚ mixedLogs).remainingLogs =
          jsTrim (joinLines ((splitLines mixedLogs).filter lineRemains)) :=
  ⟨by decide, C9_remaining_lines ℚ mixedLogs (by decide)⟩

/-- Witness for C10 at a record failing the threshold check. -/
theorem C10_witness :
    ((calculateSecureSKR_deterministic ℚ qOps overThresholdRecord).error).isSome
      ∧ (calculateSecureSKR_deterministic ℚ qOps overThresholdRecord).inputs = []
      ∧ (calculateSecureSKR_deterministic ℚ qOps
          overThresholdRecord).intermediates = [] := by
  have hth := calc_resolved ℚ qOps overThresholdRecord 1000 (3 / 25) 1000
    (1 / 1000000000) (1 / 1000000000) rfl rfl rfl rfl rfl
  rw [if_pos (by norm_num : (3 / 25 : ℚ) > 11 / 100)] at hth
  have h := (C10_failure_empty_inputs ℚ qOps overThresholdRecord).1
    (by rw [hth]; rfl)
  exact ⟨by rw [hth]; rfl, h.1, h.2⟩
